import Mathlib

/-!
Shallow embedding of the core of the websocat repository (src/lib.rs,
src/ws_server_peer.rs): PeerConstructor, ReadDebt, Session::run dispatch,
the oneshot collapse in serve, and Specifier introspection.

Asynchronous values are modelled by their resolved outcomes: a future that
yields a Peer is a FutureResult (ok / err / panicked), a stream of peers is
the finite list of elements it yields (each ok or error, futures-0.1 style).
Bytes are Nat; buffers are lists of bytes and a destination buffer is
represented by its length.
-/

namespace Websocat

/-- A Peer stands for one active connection; its identity is all that the
claims need, so it is a bare token. -/
abbrev Peer := Nat

/-- Resolved outcome of a boxed future of a Peer-like value: success, an
error routed through the error channel, or a panic (e.g. via expect). -/
inductive FutureResult (α : Type) where
  | ok (a : α) : FutureResult α
  | err (e : String) : FutureResult α
  | panicked (msg : String) : FutureResult α
deriving DecidableEq, Repr

/-- The elements yielded by a boxed stream of peers: each is a success or an
error element (futures 0.1 streams interleave Ok items and Err items). -/
abbrev PeerStream := List (Except String Peer)

/-- Embeds BoxedNewPeerFuture: the resolved outcome of the one-shot future. -/
abbrev BoxedNewPeerFuture := FutureResult Peer

/-- Coercion of a stream element into a future outcome: an Ok element
resolves the future with the peer, an Err element resolves it with the
error (stream errors and future errors use the same error type). -/
def ofExcept (x : Except String Peer) : FutureResult Peer :=
  match x with
  | Except.ok p => FutureResult.ok p
  | Except.error e => FutureResult.err e

/-- future::and_then on a resolved outcome: success feeds f, error and
panic pass through unchanged. -/
def futAndThen (x : FutureResult Peer) (f : Peer → Except String Peer) :
    FutureResult Peer :=
  match x with
  | FutureResult.ok p => ofExcept (f p)
  | FutureResult.err e => FutureResult.err e
  | FutureResult.panicked m => FutureResult.panicked m

instance : DecidableEq (Except String Peer) := fun a b =>
  match a, b with
  | Except.ok x, Except.ok y =>
      if h : x = y then isTrue (by rw [h]) else isFalse (by simp [h])
  | Except.error x, Except.error y =>
      if h : x = y then isTrue (by rw [h]) else isFalse (by simp [h])
  | Except.ok _, Except.error _ => isFalse (by simp)
  | Except.error _, Except.ok _ => isFalse (by simp)

/-- Embeds enum PeerConstructor from src/lib.rs (lines 248-251). -/
inductive PeerConstructor where
  | ServeOnce (fut : BoxedNewPeerFuture) : PeerConstructor
  | ServeMultipleTimes (stre : PeerStream) : PeerConstructor
deriving DecidableEq, Repr

/-- True exactly on the ServeMultipleTimes variant. -/
def PeerConstructor.isMultiVariant : PeerConstructor → Bool
  | PeerConstructor.ServeOnce _ => false
  | PeerConstructor.ServeMultipleTimes _ => true

/-- Embeds PeerConstructor::map (src/lib.rs lines 254-265): and_then on the
future for ServeOnce, and_then on the stream for ServeMultipleTimes (which
maps Ok elements through f and passes Err elements along). -/
def PeerConstructor.map (pc : PeerConstructor) (f : Peer → Except String Peer) :
    PeerConstructor :=
  match pc with
  | PeerConstructor.ServeOnce x => PeerConstructor.ServeOnce (futAndThen x f)
  | PeerConstructor.ServeMultipleTimes s =>
      PeerConstructor.ServeMultipleTimes (s.map (fun e => e.bind f))

/-- Embeds PeerConstructor::get_only_first_conn (src/lib.rs lines 267-280):
for a stream, stre.into_future() resolves with the first element and the
rest of the stream, which is discarded; a missing first element hits
expect("Nowhere to connect it") and panics; an error first element is
rerouted to the future error channel by map_err. ServeOnce is returned
unchanged. -/
def PeerConstructor.get_only_first_conn : PeerConstructor → BoxedNewPeerFuture
  | PeerConstructor.ServeMultipleTimes stre =>
      match stre with
      | [] => FutureResult.panicked "Nowhere to connect it"
      | Except.ok p :: _ => FutureResult.ok p
      | Except.error e :: _ => FutureResult.err e
  | PeerConstructor.ServeOnce future => future

/-- Refinement comparison point, following the spec's words for C1: the
first successful element of the stream, skipping earlier error elements. -/
def firstSuccessfulElem : PeerStream → Option Peer
  | [] => none
  | Except.ok p :: _ => some p
  | Except.error _ :: rest => firstSuccessfulElem rest

/-- Embeds struct ReadDebt (src/lib.rs line 285): an optional buffer of
bytes left over from a previous chunk. -/
structure ReadDebt where
  debt : Option (List Nat)
deriving DecidableEq, Repr

/-- Embeds ReadDebt::process_message (src/lib.rs lines 288-302). The
destination buffer is given by its length bufLen. Returns none when the
assert_eq!(self.0, None) fails (a pending debt), otherwise
some (bytes_written, bytes copied into the buffer, new state). -/
def ReadDebt.process_message (self : ReadDebt) (bufLen : Nat)
    (buf_in : List Nat) : Option (Nat × List Nat × ReadDebt) :=
  match self.debt with
  | some _ => none
  | none =>
      let l := min buf_in.length bufLen
      some (l, buf_in.take l,
        ⟨if l < buf_in.length then some (buf_in.drop l) else none⟩)

/-- Embeds ReadDebt::check_debt (src/lib.rs lines 303-313): take() the debt
out (leaving none) and feed it through process_message; with no debt return
none and leave the state unchanged. -/
def ReadDebt.check_debt (self : ReadDebt) (bufLen : Nat) :
    Option (Option (Nat × List Nat × ReadDebt)) :=
  match self.debt with
  | some debt => some (ReadDebt.process_message ⟨none⟩ bufLen debt)
  | none => none

/-- Concatenation of a list of byte chunks. -/
def listConcat (xs : List (List Nat)) : List Nat :=
  xs.foldr (fun a b => a ++ b) []

/-- Driver loop for C3: for each caller buffer size, drain debt first via
check_debt; otherwise pull the next chunk from the source and deliver it
via process_message. Returns (bytes handed to the caller, final state,
chunks not yet pulled). The two none-branches marked unreachable cannot
occur (check_debt always calls process_message on a debt-free state, and
the source is only polled when no debt is pending). -/
def runReader (self : ReadDebt) (chunks : List (List Nat)) (sizes : List Nat) :
    List Nat × ReadDebt × List (List Nat) :=
  match sizes with
  | [] => ([], self, chunks)
  | b :: bs =>
      match self.check_debt b with
      | some (some (_, out, st)) =>
          let r := runReader st chunks bs
          (out ++ r.1, r.2.1, r.2.2)
      | some none => ([], self, chunks)  -- unreachable
      | none =>
          match chunks with
          | [] => ([], self, [])
          | c :: cs =>
              match self.process_message b c with
              | some (_, out, st) =>
                  let r := runReader st cs bs
                  (out ++ r.1, r.2.1, r.2.2)
              | none => ([], self, chunks)  -- unreachable

/-- Embeds struct Options from src/lib.rs (lines 62-74). -/
structure Options where
  websocket_text_mode : Bool
  websocket_protocol : Option String
  udp_oneshot_mode : Bool
  unidirectional : Bool
  unidirectional_reverse : Bool
  exit_on_eof : Bool
  oneshot : Bool
  unlink_unix_socket : Bool
  exec_args : List String
  ws_c_uri : String
deriving DecidableEq, Repr

instance : DecidableEq (Except String Unit) := fun a b =>
  match a, b with
  | Except.ok _, Except.ok _ => isTrue (by rfl)
  | Except.error x, Except.error y =>
      if h : x = y then isTrue (by rw [h]) else isFalse (by simp [h])
  | Except.ok _, Except.error _ => isFalse (by simp)
  | Except.error _, Except.ok _ => isFalse (by simp)

/-- Resolved outcome of one Transfer's copy future: the (virtual) time at
which it completes and whether it completed cleanly or with an I/O error. -/
structure TransferFut where
  time : Nat
  res : Except String Unit
deriving DecidableEq, Repr

/-- futures-0.1 Future::join on two resolved transfers: succeeds at the
later completion time when both succeed; resolves with the first error
otherwise (the first error aborts the join). -/
def joinFut (f1 f2 : TransferFut) : TransferFut :=
  match f1.res, f2.res with
  | Except.ok _, Except.ok _ => ⟨max f1.time f2.time, Except.ok ()⟩
  | Except.error e, Except.ok _ => ⟨f1.time, Except.error e⟩
  | Except.ok _, Except.error e => ⟨f2.time, Except.error e⟩
  | Except.error e1, Except.error e2 =>
      if f1.time ≤ f2.time then ⟨f1.time, Except.error e1⟩
      else ⟨f2.time, Except.error e2⟩

/-- futures-0.1 Future::select on two resolved transfers: resolves with
whichever completes first (f1 on a tie, as it is polled first); the other
future is dropped. -/
def selectFut (f1 f2 : TransferFut) : TransferFut :=
  if f1.time ≤ f2.time then ⟨f1.time, f1.res⟩ else ⟨f2.time, f2.res⟩

/-- What Session::run did with the two transfers: the resolved combined
future, and whether each Transfer was actually run (false = dropped at
dispatch time before being polled). -/
structure RunOutcome where
  fut : TransferFut
  ranForward : Bool
  ranReverse : Bool
deriving DecidableEq, Repr

/-- Embeds the dispatch of Session::run (src/lib.rs lines 370-421) on the
resolved outcomes f1 (forward transfer) and f2 (reverse transfer): the
match on (unidirectional, unidirectional_reverse, exit_on_eof) selects
join, select, forward only, reverse only, or an immediately-ok future. -/
def Session.run (opts : Options) (f1 f2 : TransferFut) : RunOutcome :=
  match opts.unidirectional, opts.unidirectional_reverse, opts.exit_on_eof with
  | false, false, false => ⟨joinFut f1 f2, true, true⟩
  | false, false, true => ⟨selectFut f1 f2, true, true⟩
  | true, false, _ => ⟨f1, true, false⟩
  | false, true, _ => ⟨f2, false, true⟩
  | true, true, _ => ⟨⟨0, Except.ok ()⟩, false, false⟩

/-- Embeds the oneshot collapse in serve (src/lib.rs lines 464-468): after
constructing the left PeerConstructor, an oneshot option wraps its first
connection into a ServeOnce. -/
def serveCollapseLeft (opts : Options) (left : PeerConstructor) :
    PeerConstructor :=
  if opts.oneshot then PeerConstructor.ServeOnce left.get_only_first_conn
  else left

/-- Embeds enum SpecifierType (src/lib.rs lines 91-95). -/
inductive SpecifierType where
  | Stdio : SpecifierType
  | Reuser : SpecifierType
  | Other : SpecifierType
deriving DecidableEq, Repr

/-- Embeds struct OneSpecifierInfo (src/lib.rs lines 98-102). -/
structure OneSpecifierInfo where
  multiconnect : Bool
  uses_global_state : Bool
  typ : SpecifierType
deriving DecidableEq, Repr

/-- Embeds struct SpecifierInfo (src/lib.rs lines 105-108): own info plus
an optional boxed chain of descendant info. -/
inductive SpecifierInfo where
  | mk (this : OneSpecifierInfo) (subspecifier : Option SpecifierInfo) :
      SpecifierInfo

/-- Embeds SpecifierInfo::collect (src/lib.rs lines 111-121): push own info,
then walk the subspecifier chain pushing each record. -/
def SpecifierInfo.collect : SpecifierInfo → List OneSpecifierInfo
  | SpecifierInfo.mk this none => [this]
  | SpecifierInfo.mk this (some sub) => this :: sub.collect

/-- The specifier trees the visible source can build: terminal specifiers
declare their own flags through specifier_boilerplate, and WsUpgrade
(src/ws_server_peer.rs lines 16-30) wraps an inner specifier with
typ=Other, noglobalstate and proxy_is_multiconnect. -/
inductive Specifier where
  | terminal (multiconnect uses_global_state : Bool) (typ : SpecifierType) :
      Specifier
  | wsUpgrade (inner : Specifier) : Specifier
deriving DecidableEq, Repr

/-- is_multiconnect: constant for a terminal; WsUpgrade proxies the inner
node (self_0_is_subspecifier!(proxy_is_multiconnect), src/lib.rs
lines 217-220). -/
def Specifier.is_multiconnect : Specifier → Bool
  | Specifier.terminal mc _ _ => mc
  | Specifier.wsUpgrade inner => inner.is_multiconnect

/-- uses_global_state: constant for a terminal; WsUpgrade declares
noglobalstate. -/
def Specifier.uses_global_state : Specifier → Bool
  | Specifier.terminal _ gs _ => gs
  | Specifier.wsUpgrade _ => false

/-- get_type: constant for a terminal; WsUpgrade declares typ=Other. -/
def Specifier.get_type : Specifier → SpecifierType
  | Specifier.terminal _ _ t => t
  | Specifier.wsUpgrade _ => SpecifierType.Other

/-- Embeds Specifier::get_info_without_subspecs (src/lib.rs lines 145-151). -/
def Specifier.get_info_without_subspecs (s : Specifier) : OneSpecifierInfo :=
  ⟨s.is_multiconnect, s.uses_global_state, s.get_type⟩

/-- Embeds Specifier::get_info: the default implementation (src/lib.rs
lines 137-142) attaches no subspecifier; self_0_is_subspecifier!(...)
(src/lib.rs lines 210-215) attaches the inner node's chain. -/
def Specifier.get_info : Specifier → SpecifierInfo
  | Specifier.terminal mc gs t =>
      SpecifierInfo.mk
        (Specifier.terminal mc gs t).get_info_without_subspecs none
  | Specifier.wsUpgrade inner =>
      SpecifierInfo.mk
        (Specifier.wsUpgrade inner).get_info_without_subspecs
        (some inner.get_info)

/-- Number of nested specifier nodes in the tree. -/
def Specifier.depth : Specifier → Nat
  | Specifier.terminal _ _ _ => 1
  | Specifier.wsUpgrade inner => 1 + inner.depth

/-- The root-to-leaf list of per-node info records, the ordering C9 claims
for get_info().collect(). -/
def Specifier.rootToLeafChain : Specifier → List OneSpecifierInfo
  | Specifier.terminal mc gs t =>
      [(Specifier.terminal mc gs t).get_info_without_subspecs]
  | Specifier.wsUpgrade inner =>
      (Specifier.wsUpgrade inner).get_info_without_subspecs
        :: inner.rootToLeafChain

/-- C1 counterexample: on the stream [error, ok 7] the first successful
element is peer 7, but get_only_first_conn resolves with the error of the
first element instead of the first successful element, so the claim as
stated is false at this input. -/
theorem C1_counterexample :
    firstSuccessfulElem [Except.error "refused", Except.ok 7] = some 7 ∧
    (PeerConstructor.ServeMultipleTimes
        [Except.error "refused", Except.ok 7]).get_only_first_conn
      = FutureResult.err "refused" ∧
    (PeerConstructor.ServeMultipleTimes
        [Except.error "refused", Except.ok 7]).get_only_first_conn
      ≠ FutureResult.ok 7 := by
  refine ⟨rfl, rfl, ?_⟩
  intro h
  exact FutureResult.noConfusion h

/-- C1 (amended): for a nonempty ServeMultipleTimes stream,
get_only_first_conn yields the outcome of the FIRST element of the stream
(the peer when it is a success, its error otherwise) and discards the
remainder; for ServeOnce it returns the contained future unchanged. -/
theorem C1_get_only_first_conn_first_element :
    ∀ (x : Except String Peer) (rest : PeerStream) (f : BoxedNewPeerFuture),
      (PeerConstructor.ServeMultipleTimes (x :: rest)).get_only_first_conn
        = ofExcept x ∧
      (PeerConstructor.ServeOnce f).get_only_first_conn = f := by
  intro x rest f
  refine ⟨?_, rfl⟩
  cases x <;> rfl

/-- C10: on a ServeMultipleTimes stream that ends without any element,
get_only_first_conn yields a future that panics with the expect message
"Nowhere to connect it" rather than resolving through the error channel. -/
theorem C10_empty_stream_panics :
    (PeerConstructor.ServeMultipleTimes []).get_only_first_conn
      = FutureResult.panicked "Nowhere to connect it" ∧
    ∀ e : String,
      (PeerConstructor.ServeMultipleTimes []).get_only_first_conn
        ≠ FutureResult.err e := by
  refine ⟨rfl, ?_⟩
  intro e h
  exact FutureResult.noConfusion h

/-- C4: with no pending debt, process_message copies exactly
min(len dst, len chunk) bytes from the front of the chunk, returns that
count, and stores the remaining suffix as pending debt if and only if the
chunk is longer than the destination; with a pending debt the assertion
fires (modelled as none). -/
theorem C4_process_message_spec :
    ∀ (bufLen : Nat) (chunk : List Nat),
      (ReadDebt.mk none).process_message bufLen chunk
        = some (min bufLen chunk.length,
            chunk.take (min bufLen chunk.length),
            ⟨if chunk.length > bufLen
              then some (chunk.drop (min bufLen chunk.length)) else none⟩) ∧
      ∀ pending : List Nat,
        (ReadDebt.mk (some pending)).process_message bufLen chunk = none := by
  intro bufLen chunk
  refine ⟨?_, fun pending => rfl⟩
  simp only [ReadDebt.process_message, Option.some.injEq, Prod.mk.injEq,
    ReadDebt.mk.injEq]
  have hmm : min chunk.length bufLen = min bufLen chunk.length :=
    Nat.min_comm _ _
  refine ⟨hmm, by rw [hmm], ?_⟩
  rcases Nat.lt_or_ge bufLen chunk.length with h | h
  · have h1 : min chunk.length bufLen < chunk.length := by omega
    simp [h1, h, hmm]
  · have h1 : ¬ min chunk.length bufLen < chunk.length := by omega
    have h2 : ¬ chunk.length > bufLen := by omega
    simp [h1, h2]

/-- C5: check_debt returns a result exactly when a debt is pending; in that
case it takes the debt out and drains it through process_message (which
therefore never hits the assertion, and any undelivered remainder becomes
the new sole pending debt); with no debt it returns none and leaves the
state unchanged. -/
theorem C5_check_debt_spec :
    ∀ (d : ReadDebt) (bufLen : Nat),
      ((d.check_debt bufLen).isSome ↔ d.debt.isSome) ∧
      (d.debt = none → d.check_debt bufLen = none) ∧
      ∀ pending : List Nat, d.debt = some pending →
        d.check_debt bufLen
          = some ((ReadDebt.mk none).process_message bufLen pending) ∧
        d.check_debt bufLen
          = some (some (min pending.length bufLen,
              pending.take (min pending.length bufLen),
              ⟨if bufLen < pending.length
                then some (pending.drop (min pending.length bufLen))
                else none⟩)) := by
  intro d bufLen
  rcases d with ⟨dbt⟩
  cases dbt with
  | none =>
      refine ⟨by simp [ReadDebt.check_debt], fun _ => rfl, ?_⟩
      intro pending h
      exact Option.noConfusion h
  | some pending0 =>
      refine ⟨by simp [ReadDebt.check_debt], by intro h; exact Option.noConfusion h, ?_⟩
      intro pending h
      have hp : pending0 = pending := by
        simpa using congrArg (fun o => o.getD []) h
      subst hp
      refine ⟨rfl, ?_⟩
      simp only [ReadDebt.check_debt, ReadDebt.process_message,
        Option.some.injEq, Prod.mk.injEq, ReadDebt.mk.injEq]
      refine ⟨trivial, trivial, ?_⟩
      rcases Nat.lt_or_ge bufLen pending0.length with hlt | hge
      · have h1 : min pending0.length bufLen < pending0.length := by omega
        simp [h1, hlt]
      · have h1 : ¬ min pending0.length bufLen < pending0.length := by omega
        have h2 : ¬ bufLen < pending0.length := by omega
        simp [h1, h2]

/-- C5 witness: the theorem applied to a pending debt [1,2,3] and a
destination of size 2: the call succeeds, hands out [1,2], and keeps [3]
as the new pending debt. -/
theorem C5_check_debt_witness :
    (ReadDebt.mk (some [1, 2, 3])).check_debt 2
      = some (some (2, [1, 2], ReadDebt.mk (some [3]))) := by
  have h := ((C5_check_debt_spec (ReadDebt.mk (some [1, 2, 3])) 2).2.2
    [1, 2, 3] rfl).2
  rw [h]
  rfl

/-- C6: map applies f to each produced Peer and preserves the variant:
ServeOnce maps to ServeOnce (success feeds f, an error resolves the mapped
future with the same error) and ServeMultipleTimes maps to
ServeMultipleTimes of the same length, where each successful element is
replaced by f of its peer and each error element is passed through as the
same stream error element. -/
theorem C6_map_spec :
    ∀ (pc : PeerConstructor) (f : Peer → Except String Peer),
      (pc.map f).isMultiVariant = pc.isMultiVariant ∧
      (∀ p : Peer,
        (PeerConstructor.ServeOnce (FutureResult.ok p)).map f
          = PeerConstructor.ServeOnce (ofExcept (f p))) ∧
      (∀ e : String,
        (PeerConstructor.ServeOnce (FutureResult.err e)).map f
          = PeerConstructor.ServeOnce (FutureResult.err e)) ∧
      ∀ s : PeerStream, ∃ s' : PeerStream,
        (PeerConstructor.ServeMultipleTimes s).map f
          = PeerConstructor.ServeMultipleTimes s' ∧
        s'.length = s.length ∧
        (∀ (i : Nat) (p : Peer),
          s[i]? = some (Except.ok p) → s'[i]? = some (f p)) ∧
        (∀ (i : Nat) (e : String),
          s[i]? = some (Except.error e)
            → s'[i]? = some (Except.error e)) := by
  intro pc f
  refine ⟨?_, fun p => rfl, fun e => rfl, ?_⟩
  · cases pc <;> rfl
  · intro s
    have hm : (PeerConstructor.ServeMultipleTimes s).map f
        = PeerConstructor.ServeMultipleTimes (s.map (fun e => e.bind f)) :=
      rfl
    refine ⟨s.map (fun e => e.bind f), hm, List.length_map _ _, ?_, ?_⟩
    · intro i p hi
      rw [List.getElem?_map, hi]
      rfl
    · intro i e hi
      rw [List.getElem?_map, hi]
      rfl

/-- C6 witness: the theorem applied to a two-element stream and a concrete
f: the mapped constructor is still multiple-serving, position 0 carries
f of peer 1 and position 1 keeps its error. -/
theorem C6_map_witness :
    ∃ s' : PeerStream,
      (PeerConstructor.ServeMultipleTimes
          [Except.ok 1, Except.error "x"]).map (fun p => Except.ok (p + 1))
        = PeerConstructor.ServeMultipleTimes s' ∧
      s'[0]? = some (Except.ok 2) ∧
      s'[1]? = some (Except.error "x") := by
  obtain ⟨s', hmap, _, hok, herr⟩ :=
    (C6_map_spec (PeerConstructor.ServeMultipleTimes
        [Except.ok 1, Except.error "x"]) (fun p => Except.ok (p + 1))).2.2.2
      [Except.ok 1, Except.error "x"]
  exact ⟨s', hmap, hok 0 1 rfl, herr 1 "x" rfl⟩

/-- C7: in serve, when the oneshot option is set the left constructor is
collapsed to ServeOnce via get_only_first_conn (so it is never the
multiple-serving variant afterwards); when oneshot is unset it is left
untouched. -/
theorem C7_oneshot_collapse :
    ∀ (opts : Options) (left : PeerConstructor),
      (opts.oneshot = true →
        serveCollapseLeft opts left
          = PeerConstructor.ServeOnce left.get_only_first_conn ∧
        (serveCollapseLeft opts left).isMultiVariant = false) ∧
      (opts.oneshot = false → serveCollapseLeft opts left = left) := by
  intro opts left
  constructor
  · intro h
    refine ⟨by simp [serveCollapseLeft, h], by simp [serveCollapseLeft, h, PeerConstructor.isMultiVariant]⟩
  · intro h
    simp [serveCollapseLeft, h]

/-- C7 witness: the theorem applied to an oneshot configuration and a
multi-connect left whose stream starts with peer 5: the collapsed left is
the single-shot future of that first connection. -/
theorem C7_oneshot_collapse_witness :
    serveCollapseLeft
        ⟨false, none, false, false, false, false, true, false, [], ""⟩
        (PeerConstructor.ServeMultipleTimes [Except.ok 5, Except.ok 6])
      = PeerConstructor.ServeOnce (FutureResult.ok 5) := by
  have h := ((C7_oneshot_collapse
      ⟨false, none, false, false, false, false, true, false, [], ""⟩
      (PeerConstructor.ServeMultipleTimes [Except.ok 5, Except.ok 6])).1
    rfl).1
  rw [h]
  rfl

/-- C8: the WsUpgrade wrapper proxies is_multiconnect from its inner
specifier, so a WS upgrade over a multi-connect node is multi-connect and
over a single-connect node is single-connect. -/
theorem C8_wsupgrade_proxies_multiconnect :
    ∀ t : Specifier,
      (Specifier.wsUpgrade t).is_multiconnect = t.is_multiconnect ∧
      ∀ (gs : Bool) (ty : SpecifierType) (mc : Bool),
        (Specifier.wsUpgrade (Specifier.terminal mc gs ty)).is_multiconnect
          = mc := by
  intro t
  exact ⟨rfl, fun gs ty mc => rfl⟩

/-- C2: Session::run dispatches on (unidirectional, unidirectional_reverse,
exit_on_eof): (F,F,F) runs both transfers joined, so when both succeed the
session completes only after both did (at the later completion time);
(F,F,T) runs both selected, completing when either completes (at the
earlier completion time) and dropping the other; (T,F,*) drops the reverse
transfer and resolves as the forward one alone; (F,T,*) drops the forward
transfer and resolves as the reverse one alone; (T,T,*) drops both and
completes immediately with success. -/
theorem C2_session_run_dispatch :
    ∀ (o : Options) (f1 f2 : TransferFut),
      (o.unidirectional = false → o.unidirectional_reverse = false →
        o.exit_on_eof = false →
          Session.run o f1 f2 = ⟨joinFut f1 f2, true, true⟩ ∧
          (f1.res = Except.ok () → f2.res = Except.ok () →
            (Session.run o f1 f2).fut
              = ⟨max f1.time f2.time, Except.ok ()⟩)) ∧
      (o.unidirectional = false → o.unidirectional_reverse = false →
        o.exit_on_eof = true →
          Session.run o f1 f2 = ⟨selectFut f1 f2, true, true⟩ ∧
          (Session.run o f1 f2).fut.time = min f1.time f2.time) ∧
      (o.unidirectional = true → o.unidirectional_reverse = false →
          Session.run o f1 f2 = ⟨f1, true, false⟩) ∧
      (o.unidirectional = false → o.unidirectional_reverse = true →
          Session.run o f1 f2 = ⟨f2, false, true⟩) ∧
      (o.unidirectional = true → o.unidirectional_reverse = true →
          Session.run o f1 f2 = ⟨⟨0, Except.ok ()⟩, false, false⟩) := by
  intro o f1 f2
  refine ⟨?_, ?_, ?_, ?_, ?_⟩
  · intro h1 h2 h3
    refine ⟨by simp [Session.run, h1, h2, h3], ?_⟩
    intro e1 e2
    simp [Session.run, h1, h2, h3, joinFut, e1, e2]
  · intro h1 h2 h3
    refine ⟨by simp [Session.run, h1, h2, h3], ?_⟩
    simp only [Session.run, h1, h2, h3, selectFut]
    rcases Nat.le_total f1.time f2.time with hle | hle
    · simp [hle, Nat.min_eq_left hle]
    · rcases Nat.lt_or_ge f2.time f1.time with hlt | hge
      · have : ¬ f1.time ≤ f2.time := by omega
        simp [this, Nat.min_eq_right hle]
      · have heq : f1.time = f2.time := by omega
        simp [heq]
  · intro h1 h2
    simp [Session.run, h1, h2]
  · intro h1 h2
    simp [Session.run, h1, h2]
  · intro h1 h2
    cases h3 : o.exit_on_eof <;> simp [Session.run, h1, h2, h3]

/-- C2 witness: the theorem applied to the default (F,F,F) configuration
and transfers succeeding at times 3 and 5: the session runs both and
completes with success at time 5. -/
theorem C2_session_run_witness :
    Session.run
        ⟨false, none, false, false, false, false, false, false, [], ""⟩
        ⟨3, Except.ok ()⟩ ⟨5, Except.ok ()⟩
      = ⟨⟨5, Except.ok ()⟩, true, true⟩ := by
  have h := (C2_session_run_dispatch
      ⟨false, none, false, false, false, false, false, false, [], ""⟩
      ⟨3, Except.ok ()⟩ ⟨5, Except.ok ()⟩).1 rfl rfl rfl
  rw [h.1]
  rfl

/-- C9: for every specifier tree, get_info().collect() lists exactly one
OneSpecifierInfo per nested specifier node (its length is the tree depth),
ordered from the outermost node to the innermost one. -/
theorem C9_get_info_collect_chain :
    ∀ t : Specifier,
      t.get_info.collect.length = t.depth ∧
      t.get_info.collect = t.rootToLeafChain := by
  intro t
  induction t with
  | terminal mc gs ty =>
      exact ⟨rfl, rfl⟩
  | wsUpgrade inner ih =>
      refine ⟨?_, ?_⟩
      · simp only [Specifier.get_info, SpecifierInfo.collect,
          List.length_cons, Specifier.depth, ih.1]
        omega
      · simp only [Specifier.get_info, SpecifierInfo.collect,
          Specifier.rootToLeafChain, ih.2]

theorem listConcat_nil : listConcat [] = [] := rfl

theorem listConcat_cons (c : List Nat) (cs : List (List Nat)) :
    listConcat (c :: cs) = c ++ listConcat cs := rfl

/-- Splitting a chunk at min(len chunk, bufLen) and rejoining the delivered
prefix with the stored remainder (empty when nothing was stored) gives the
chunk back. -/
theorem take_min_append_rest (c : List Nat) (b : Nat) :
    c.take (min c.length b)
      ++ ((if min c.length b < c.length
            then some (c.drop (min c.length b)) else none).getD [])
      = c := by
  rcases Nat.lt_or_ge b c.length with h | h
  · have h1 : min c.length b < c.length := by omega
    simp only [h1, if_pos, Option.getD_some]
    exact List.take_append_drop _ _
  · have h1 : ¬ min c.length b < c.length := by omega
    have h2 : min c.length b = c.length := by omega
    simp [h1, h2]

/-- Conservation invariant of the ReadDebt driver loop: the bytes handed
to the caller, followed by the bytes still pending as debt and the bytes
of the chunks not yet pulled, are exactly the initial debt followed by all
chunks — no byte is duplicated, lost or reordered. -/
theorem runReader_conserves (sizes : List Nat) :
    ∀ (self : ReadDebt) (chunks : List (List Nat)),
      (runReader self chunks sizes).1
        ++ (((runReader self chunks sizes).2.1.debt.getD [])
          ++ listConcat (runReader self chunks sizes).2.2)
      = self.debt.getD [] ++ listConcat chunks := by
  induction sizes with
  | nil =>
      intro self chunks
      simp [runReader]
  | cons b bs ih =>
      intro self chunks
      rcases self with ⟨d⟩
      cases d with
      | some debt =>
          have key := take_min_append_rest debt b
          simp only [runReader, ReadDebt.check_debt,
            ReadDebt.process_message, Option.getD_some]
          rw [List.append_assoc, ih, ← List.append_assoc, key]
      | none =>
          cases chunks with
          | nil => simp [runReader, ReadDebt.check_debt]
          | cons c cs =>
              have key := take_min_append_rest c b
              simp only [runReader, ReadDebt.check_debt,
                ReadDebt.process_message, Option.getD_some,
                Option.getD_none, listConcat_cons, List.nil_append]
              rw [List.append_assoc, ih, ← List.append_assoc, key]

/-- C3: feeding chunks through a fresh ReadDebt (process_message on a new
chunk only when no debt is pending, check_debt drained before each pull)
conserves the byte sequence: the bytes returned to the caller, the pending
debt and the unpulled chunks concatenate to exactly the concatenation of
the chunks, and when the run ends with the debt drained and every chunk
pulled, the returned bytes are exactly the concatenation of the chunks. -/
theorem C3_readdebt_conservation :
    ∀ (chunks : List (List Nat)) (sizes : List Nat),
      (runReader ⟨none⟩ chunks sizes).1
        ++ (((runReader ⟨none⟩ chunks sizes).2.1.debt.getD [])
          ++ listConcat (runReader ⟨none⟩ chunks sizes).2.2)
        = listConcat chunks ∧
      ((runReader ⟨none⟩ chunks sizes).2.1.debt = none →
        (runReader ⟨none⟩ chunks sizes).2.2 = [] →
        (runReader ⟨none⟩ chunks sizes).1 = listConcat chunks) := by
  intro chunks sizes
  have h := runReader_conserves sizes ⟨none⟩ chunks
  simp only [Option.getD_none, List.nil_append] at h
  refine ⟨h, ?_⟩
  intro hdebt hrem
  rw [hdebt, hrem] at h
  simpa [listConcat_nil] using h

/-- C3 witness: the theorem applied to chunks [1,2,3] and [4] read through
buffers of sizes 2, 2, 1: every byte comes back, in order, exactly once. -/
theorem C3_readdebt_conservation_witness :
    (runReader ⟨none⟩ [[1, 2, 3], [4]] [2, 2, 1]).1 = [1, 2, 3, 4] := by
  have h := (C3_readdebt_conservation [[1, 2, 3], [4]] [2, 2, 1]).2 rfl rfl
  rw [h]
  rfl

end Websocat
